import Mathlib

/-!
Verification development for the chinle-primarycare-scheduler repository.

The Python source builds CP-SAT models for clinic duty rosters.  We give a
shallow embedding of the parts relevant to the specification claims:

* the calendar builders (`src/utils/calendar.py`);
* the variable fabric (`create_shift_variables` in the constraint modules);
* the constraint assemblers, rendered as executable generators of constraint
  data together with boolean satisfaction checkers over a 0/1 assignment
  (the assignment plays the role of a solver solution, auxiliary integer or
  indicator variables are passed explicitly);
* the feasibility-search control loop of `create_im_schedule`,
  `create_peds_schedule` and `create_fp_schedule` (`src/engine/engine.py`),
  with the CP-SAT solver abstracted as an oracle from the attempted
  minimum-staffing threshold to a status and a wall time.

Dates are modelled as integers (day numbers) with weekday `d % 7`,
0 = Monday, matching Python `date.weekday()`.  The week keys
`(year, isocalendar week)` used by the internal-medicine and family-practice
modules are modelled by the Monday starting the week, and the Sunday-based
`get_schedule_week_key` of the pediatrics module by the Sunday starting the
week; this matches the source grouping whenever the horizon does not
straddle an ISO year boundary.
-/

namespace Chinle

/-- Session kinds that occur in department calendars. -/
inductive Session where
  | morning
  | afternoon
  | call
deriving DecidableEq, Repr

/-- Providers are identified by name. -/
abbrev Provider := String

/-- Weekday names, as produced by `strftime` in the source. -/
inductive Weekday where
  | monday
  | tuesday
  | wednesday
  | thursday
  | friday
  | saturday
  | sunday
deriving DecidableEq, Repr

/-- Weekday of a date: `d % 7` with 0 = Monday (Python `date.weekday()`). -/
def dateWeekday (d : Int) : Weekday :=
  match (d % 7).toNat with
  | 0 => .monday
  | 1 => .tuesday
  | 2 => .wednesday
  | 3 => .thursday
  | 4 => .friday
  | 5 => .saturday
  | _ => .sunday

/-- A calendar: ordered mapping from date to its list of valid sessions
(`generate_clinic_calendar` / `generate_pediatric_calendar` output). -/
abbrev Calendar := List (Int × List Session)

/-- Clinic-level calendar rules (`clinic_rules` keys used by the builders). -/
structure CalRules where
  clinicDays : List Weekday
  clinicSessions : List (Weekday × List Session)
  callDays : List Weekday
  holidayDates : List Int

/-- `clinic_sessions.get(weekday, [])`. -/
def sessionsFor (rules : CalRules) (w : Weekday) : List Session :=
  match rules.clinicSessions.find? (fun e => decide (e.1 = w)) with
  | some e => e.2
  | none => []

/-- The inclusive date range iterated by the builders. -/
def rangeDates (startDate endDate : Int) : List Int :=
  (List.range (endDate - startDate + 1).toNat).map
    (fun (i : Nat) => startDate + (i : Int))

/-- `generate_clinic_calendar` (src/utils/calendar.py): a date is added when
its weekday is in `clinic_days`, it is not a holiday, and the session list
for the weekday is nonempty; raises on an inverted range. -/
def generateClinicCalendar (startDate endDate : Int) (rules : CalRules) :
    Except String Calendar :=
  if startDate > endDate then
    .error "start_date must be on or before end_date"
  else
    .ok ((rangeDates startDate endDate).filterMap (fun d =>
      if dateWeekday d ∈ rules.clinicDays ∧ d ∉ rules.holidayDates then
        if (sessionsFor rules (dateWeekday d)).isEmpty then none
        else some (d, sessionsFor rules (dateWeekday d))
      else none))

/-- `generate_pediatric_calendar` (src/utils/calendar.py): holidays are
skipped completely; clinic sessions are added on clinic days and a `call`
session is appended on call days; the date is kept when the combined list
is nonempty. -/
def generatePediatricCalendar (startDate endDate : Int) (rules : CalRules) :
    Except String Calendar :=
  if startDate > endDate then
    .error "start_date must be on or before end_date"
  else
    .ok ((rangeDates startDate endDate).filterMap (fun d =>
      if d ∈ rules.holidayDates then none
      else
        if ((if dateWeekday d ∈ rules.clinicDays then
              sessionsFor rules (dateWeekday d) else []) ++
            (if dateWeekday d ∈ rules.callDays then [Session.call]
              else [])).isEmpty then none
        else some (d,
          (if dateWeekday d ∈ rules.clinicDays then
              sessionsFor rules (dateWeekday d) else []) ++
            (if dateWeekday d ∈ rules.callDays then [Session.call]
              else []))))

/-- A date is a key of the calendar mapping. -/
def isCalKey (cal : Calendar) (d : Int) : Prop :=
  ∃ ss, (d, ss) ∈ cal

/- ------------------------------------------------------------------ -/
/- Feasibility search controller (src/engine/engine.py)               -/
/- ------------------------------------------------------------------ -/

/-- CP-SAT statuses distinguished by the engine. -/
inductive CpStatus where
  | optimal
  | feasible
  | infeasible
  | modelInvalid
  | unknown
deriving DecidableEq, Repr

/-- `status in [cp_model.OPTIMAL, cp_model.FEASIBLE]`. -/
def CpStatus.isSuccess : CpStatus → Bool
  | .optimal => true
  | .feasible => true
  | _ => false

/-- `list(range(initial_min_providers, -1, -1))`: the descending threshold
list `[k, k-1, ..., 0]` tried in search mode. -/
def descendingFrom : Nat → List Nat
  | 0 => [0]
  | n + 1 => (n + 1) :: descendingFrom n

/-- Outcome of one solver invocation: status and wall time. -/
structure SolveAttempt where
  status : CpStatus
  wallTime : Nat
deriving DecidableEq, Repr

/-- The solver abstracted as an oracle from the minimum-staffing threshold
of the freshly built model to the attempt outcome.  Each attempt builds its
model from the threshold alone, so the oracle is a function of the
threshold only (no state is carried between attempts). -/
abbrev Solver := Nat → SolveAttempt

/-- The solution-status dictionary returned by the engine functions. -/
inductive StatusRecord where
  | solved (status : CpStatus) (minProviders : Nat) (totalSolveTime : Nat)
  | directFail (status : CpStatus) (minProviders : Nat)
      (solveTime totalSolveTime : Nat)
  | exhausted (minProvidersTried : List Nat) (totalSolveTime : Nat)
deriving DecidableEq, Repr

/-- How the `for min_providers in min_provider_values` loop exits. -/
inductive LoopExit where
  | directReturn (t : Nat) (st : CpStatus) (wall total : Nat)
  | finished (best : Option (Nat × CpStatus)) (total : Nat)
deriving DecidableEq, Repr

/-- The attempt loop shared by `create_im_schedule`, `create_peds_schedule`
and `create_fp_schedule`: for each threshold build and solve a fresh model;
on success break (search mode) or store the result and continue (direct
mode); on failure continue (search mode) or return at once (direct mode).
The accumulator is `total_solve_time`. -/
def engineLoop (search : Bool) (solve : Solver) :
    List Nat → Nat → Option (Nat × CpStatus) → LoopExit
  | [], acc, best => .finished best acc
  | t :: rest, acc, best =>
    let a := solve t
    let acc2 := acc + a.wallTime
    if a.status.isSuccess then
      if search then .finished (some (t, a.status)) acc2
      else engineLoop search solve rest acc2 (some (t, a.status))
    else
      if search then engineLoop search solve rest acc2 best
      else .directReturn t a.status a.wallTime acc2

/-- The 3-tuple returned by `create_im_schedule` / `create_fp_schedule`:
optional schedule table, optional provider summary, status record. -/
structure ImReturn (α β : Type) where
  schedule : Option α
  providerSummary : Option β
  status : StatusRecord
deriving DecidableEq, Repr

/-- `create_im_schedule` control flow.  `mat` and `summ` abstract the
solution materializer: they build the schedule table and provider summary
from the successful attempt's threshold. -/
def createImScheduleModel {α β : Type} (searchMode : Bool)
    (initialMin configMin : Nat) (solve : Solver)
    (mat : Nat → α) (summ : Nat → β) : ImReturn α β :=
  match engineLoop searchMode solve
      (if searchMode then descendingFrom initialMin else [configMin])
      0 none with
  | .directReturn t st w total => ⟨none, none, .directFail st t w total⟩
  | .finished none total =>
      ⟨none, none, .exhausted
        (if searchMode then descendingFrom initialMin else [configMin]) total⟩
  | .finished (some (t, st)) total =>
      ⟨some (mat t), some (summ t), .solved st t total⟩

/-- Return value of `create_peds_schedule`: a 4-tuple on success and on
search exhaustion, a 3-tuple on direct-mode failure. -/
inductive PedsReturn (α β γ : Type) where
  | quad (schedule : Option α) (providerSummary : Option β)
      (callSummary : Option γ) (status : StatusRecord)
  | triple (schedule : Option α) (providerSummary : Option β)
      (status : StatusRecord)
deriving DecidableEq, Repr

/-- Number of elements the caller receives. -/
def PedsReturn.arity {α β γ : Type} : PedsReturn α β γ → Nat
  | .quad _ _ _ _ => 4
  | .triple _ _ _ => 3

/-- `create_peds_schedule` control flow, with the materializers for the
schedule table, provider summary and call summary abstracted, as well as
the achieved clinic staffing minimum that the pediatric status record
reports in place of the threshold (the source recomputes it from the
materialized schedule of the successful attempt, so it is a function of
that attempt's threshold). -/
def createPedsScheduleModel {α β γ : Type} (searchMode : Bool)
    (initialMin configMin : Nat) (solve : Solver)
    (mat : Nat → α) (summ : Nat → β) (callSumm : Nat → γ)
    (minAchieved : Nat → Nat) : PedsReturn α β γ :=
  match engineLoop searchMode solve
      (if searchMode then descendingFrom initialMin else [configMin])
      0 none with
  | .directReturn t st w total => .triple none none (.directFail st t w total)
  | .finished none total =>
      .quad none none none (.exhausted
        (if searchMode then descendingFrom initialMin else [configMin]) total)
  | .finished (some (t, st)) total =>
      .quad (some (mat t)) (some (summ t)) (some (callSumm t))
        (.solved st (minAchieved t) total)

/- ------------------------------------------------------------------ -/
/- Variable fabric (create_shift_variables)                           -/
/- ------------------------------------------------------------------ -/

/-- `calendar.get(d)`: session list of a calendar key, `[]` if absent. -/
def calLookup (cal : Calendar) (d : Int) : List Session :=
  match cal.find? (fun e => decide (e.1 = d)) with
  | some e => e.2
  | none => []

/-- Session keys of `shift_vars.get(p, {}).get(d, {})`: the sessions for
which a `(provider, date, session)` decision variable exists.
`create_shift_variables` gives every provider exactly the calendar's
(date, session) pairs. -/
def fabric (providers : List Provider) (cal : Calendar) (p : Provider)
    (d : Int) : List Session :=
  if p ∈ providers then calLookup cal d else []

/-- Date keys of `shift_vars.get(p, {})`. -/
def fabricDates (providers : List Provider) (cal : Calendar) (p : Provider) :
    List Int :=
  if p ∈ providers then cal.map Prod.fst else []

/-- A 0/1 solution: the value the solver assigned to each decision
variable (arbitrary off the fabric, where no variable exists). -/
abbrev Asg := Provider → Int → Session → Bool

/- ------------------------------------------------------------------ -/
/- Leave and inpatient blocking assemblers                            -/
/- ------------------------------------------------------------------ -/

/-- A leave-request row `(provider, date)`. -/
abbrev LeaveRow := Provider × Int

/-- An expanded inpatient-day row `(provider, date)`. -/
abbrev InpatientDay := Provider × Int

/-- An inpatient rotation start row. -/
structure InpatientStart where
  provider : Provider
  startDate : Int
deriving DecidableEq, Repr

/-- `add_leave_constraints`: for each leave row, one `var == 0` constraint
per session variable existing at that (provider, date). -/
def leaveZeroTriples (providers : List Provider) (cal : Calendar)
    (leave : List LeaveRow) : List (Provider × Int × Session) :=
  leave.flatMap (fun r =>
    (fabric providers cal r.1 r.2).map (fun s => (r.1, r.2, s)))

/-- The `blocked_dates` pairs of `add_inpatient_block_constraints`: for each
rotation start `s`, the relief dates `s - 1` and `s + 10`; plus every
expanded rotation date.  (The source collects them in a per-provider set;
a list with possible repetitions is satisfaction-equivalent.) -/
def inpatientBlockedPairs (starts : List InpatientStart)
    (days : List InpatientDay) : List (Provider × Int) :=
  starts.flatMap (fun r =>
    [(r.provider, r.startDate - 1), (r.provider, r.startDate + 10)]) ++ days

/-- `add_inpatient_block_constraints` (internal medicine / family
practice): `var == 0` for every session variable on every blocked date. -/
def imInpatientZeroTriples (providers : List Provider) (cal : Calendar)
    (starts : List InpatientStart) (days : List InpatientDay) :
    List (Provider × Int × Session) :=
  (inpatientBlockedPairs starts days).flatMap (fun pd =>
    (fabric providers cal pd.1 pd.2).map (fun s => (pd.1, pd.2, s)))

/-- A solution satisfies a list of `var == 0` constraints. -/
def zeroTriplesOk (asg : Asg) (ts : List (Provider × Int × Session)) :
    Bool :=
  ts.all (fun tr => !asg tr.1 tr.2.1 tr.2.2)

/-- `add_inpatient_rdo_constraints` from the unused draft module
`src/constraint/internal_medicine.py`: the same relief dates, but each is
blocked only when it falls on the weekday named by
`inpatient_schedule.pre_inpatient_rdo` / `post_inpatient_rdo`. -/
def imInpatientRdoZeroTriples (providers : List Provider) (cal : Calendar)
    (starts : List InpatientStart) (preRdoDay postRdoDay : Weekday) :
    List (Provider × Int × Session) :=
  starts.flatMap (fun r =>
    (if dateWeekday (r.startDate - 1) = preRdoDay then
      (fabric providers cal r.provider (r.startDate - 1)).map
        (fun s => (r.provider, r.startDate - 1, s))
    else []) ++
    (if dateWeekday (r.startDate + 10) = postRdoDay then
      (fabric providers cal r.provider (r.startDate + 10)).map
        (fun s => (r.provider, r.startDate + 10, s))
    else []))

/- ------------------------------------------------------------------ -/
/- Min/max staffing assemblers                                        -/
/- ------------------------------------------------------------------ -/

/-- One `min <= sum(staff_vars) <= max` constraint for a slot. -/
structure SlotBound where
  date : Int
  session : Session
  staff : List Provider
  lo : Nat
  hi : Nat
deriving DecidableEq, Repr

/-- The `staff_vars` provider list for a slot: providers holding a
variable for `(d, s)`. -/
def slotStaff (providers : List Provider) (cal : Calendar) (d : Int)
    (s : Session) : List Provider :=
  providers.filter (fun p => decide (s ∈ fabric providers cal p d))

/-- `add_min_max_staffing_constraints` (internal medicine / family
practice): bounds for every (date, session) slot of the calendar with a
nonempty `staff_vars` list. -/
def imStaffingConstraints (providers : List Provider) (cal : Calendar)
    (minS maxS : Nat) : List SlotBound :=
  cal.flatMap (fun e =>
    e.2.filterMap (fun s =>
      let staff := slotStaff providers cal e.1 s
      if staff.isEmpty then none else some ⟨e.1, s, staff, minS, maxS⟩))

/-- Clinic (non-call) session test used by the pediatrics module. -/
def Session.isClinic : Session → Bool
  | .morning => true
  | .afternoon => true
  | .call => false

/-- `add_min_max_staffing_constraints` (pediatrics): identical, except the
session list of each date is first filtered to morning/afternoon, so call
slots receive no staffing bounds. -/
def pedsStaffingConstraints (providers : List Provider) (cal : Calendar)
    (minS maxS : Nat) : List SlotBound :=
  cal.flatMap (fun e =>
    (e.2.filter Session.isClinic).filterMap (fun s =>
      let staff := slotStaff providers cal e.1 s
      if staff.isEmpty then none else some ⟨e.1, s, staff, minS, maxS⟩))

/-- Number of providers of the slot's `staff_vars` assigned to the slot. -/
def slotCount (asg : Asg) (c : SlotBound) : Nat :=
  c.staff.countP (fun p => asg p c.date c.session)

/-- A solution satisfies a list of staffing bounds. -/
def staffingOk (asg : Asg) (cs : List SlotBound) : Bool :=
  cs.all (fun c => decide (c.lo ≤ slotCount asg c) &&
    decide (slotCount asg c ≤ c.hi))

/- ------------------------------------------------------------------ -/
/- Pediatric call constraints used here                               -/
/- ------------------------------------------------------------------ -/

/-- The `call_dates` set of `add_call_constraints`: dates for which some
provider holds a call variable. -/
def pedsCallDates (providers : List Provider) (cal : Calendar) :
    List Int :=
  (cal.map Prod.fst).filter (fun d =>
    providers.any (fun p => decide (Session.call ∈ fabric providers cal p d)))

/-- Section B1 of `add_call_constraints`: exactly one provider on call on
each call date. -/
def pedsCallExactlyOneOk (providers : List Provider) (cal : Calendar)
    (asg : Asg) : Bool :=
  (pedsCallDates providers cal).all (fun d =>
    (providers.filter
        (fun p => decide (Session.call ∈ fabric providers cal p d))).countP
        (fun p => asg p d Session.call) == 1)

/-- `call_dates` of `add_post_call_afternoon_constraints` /
`add_monthly_call_limits`: calendar dates whose session list contains
`call`. -/
def pedsCalendarCallDates (cal : Calendar) : List Int :=
  (cal.filter (fun e => Session.call ∈ e.2)).map Prod.fst

/-- `add_post_call_afternoon_constraints`: the (provider, call date) pairs
for which the constraint `afternoon(next day) == 0 if call(date)` is
created — the next day must be a calendar key with an afternoon session and
the provider must hold both variables. -/
def pedsPostCallConstraints (providers : List Provider) (cal : Calendar) :
    List (Provider × Int) :=
  (pedsCalendarCallDates cal).flatMap (fun cd =>
    let nd := cd + 1
    if (cal.find? (fun e => decide (e.1 = nd))).isSome then
      if Session.afternoon ∈ calLookup cal nd then
        providers.filterMap (fun p =>
          if Session.call ∈ fabric providers cal p cd ∧
              Session.afternoon ∈ fabric providers cal p nd then
            some (p, cd)
          else none)
      else []
    else [])

/-- A solution satisfies the post-call afternoon constraints. -/
def pedsPostCallOk (providers : List Provider) (cal : Calendar)
    (asg : Asg) : Bool :=
  (pedsPostCallConstraints providers cal).all (fun pr =>
    !asg pr.1 pr.2 Session.call || !asg pr.1 (pr.2 + 1) Session.afternoon)

/- ------------------------------------------------------------------ -/
/- Week keys and provider configuration                               -/
/- ------------------------------------------------------------------ -/

/-- Week key used by the internal-medicine and family-practice modules,
`(date.year, date.isocalendar()[1])`, modelled by the Monday starting the
ISO week (same grouping away from ISO year boundaries). -/
def mondayOf (d : Int) : Int := d - d % 7

/-- `get_schedule_week_key` (pediatrics): the Sunday starting the
Sunday-to-Saturday week, via
`d - (weekday + 1 if weekday < 6 else 0)`. -/
def sundayWeekStart (d : Int) : Int :=
  let wd := d % 7
  if wd < 6 then d - (wd + 1) else d

/-- The per-provider configuration fields read by the assemblers;
`needsRdo` models the `needs_rdo` flag with its parser default of true
when the key is absent from the YAML. -/
structure ProviderInfo where
  role : String
  maxClinicsPerWeek : Int
  rdoPreference : Option Weekday
  needsRdo : Bool
deriving DecidableEq, Repr

/-- `config['providers']` as an association list. -/
abbrev ProviderConfig := List (Provider × ProviderInfo)

/-- `provider_config.get(p)`. -/
def cfgLookup (cfg : ProviderConfig) (p : Provider) : Option ProviderInfo :=
  (cfg.find? (fun e => decide (e.1 = p))).map Prod.snd

/- ------------------------------------------------------------------ -/
/- Random-day-off (RDO) assembler (internal medicine)                 -/
/- ------------------------------------------------------------------ -/

/-- `blocked_weeks` membership in `add_rdo_constraints`: the provider has
leave or inpatient duty in the week, or is an MD/DO and the week holds a
holiday. -/
def imBlockedWeek (leave : List LeaveRow) (inpDays : List InpatientDay)
    (holidays : List Int) (cfg : ProviderConfig) (p : Provider)
    (w : Int) : Bool :=
  leave.any (fun r => decide (r.1 = p) && decide (mondayOf r.2 = w)) ||
  inpDays.any (fun r => decide (r.1 = p) && decide (mondayOf r.2 = w)) ||
  (match cfgLookup cfg p with
   | some info =>
       (info.role == "MD" || info.role == "DO") &&
         holidays.any (fun h => decide (mondayOf h = w))
   | none => false)

/-- The groups produced by `add_rdo_constraints` (internal medicine): for
each provider and each unblocked week holding RDO-eligible dates, the list
of dates over which the `sum(is_rdo) == 1` constraint ranges (narrowed to
the preferred weekday when one is configured and available). -/
def imRdoGroups (providers : List Provider) (cal : Calendar)
    (leave : List LeaveRow) (inpDays : List InpatientDay)
    (holidays : List Int) (eligibleDays : List Weekday)
    (cfg : ProviderConfig) : List (Provider × List Int) :=
  providers.flatMap (fun p =>
    let eligDates := (fabricDates providers cal p).filter
      (fun d => dateWeekday d ∈ eligibleDays)
    let weeks := (eligDates.map mondayOf).eraseDups
    weeks.filterMap (fun w =>
      if imBlockedWeek leave inpDays holidays cfg p w then none
      else
        let ed := eligDates.filter (fun d => decide (mondayOf d = w))
        let ed2 :=
          match (cfgLookup cfg p).bind ProviderInfo.rdoPreference with
          | some pw =>
              let pd := ed.filter (fun d => decide (dateWeekday d = pw))
              if pd.isEmpty then ed else pd
          | none => ed
        if ed2.isEmpty then none else some (p, ed2)))

/-- The forced value of the `is_rdo` indicator of a date: every session
variable of the provider on that date is 0 (`sum(day_sessions) == 0`). -/
def dayAllZero (providers : List Provider) (cal : Calendar) (asg : Asg)
    (p : Provider) (d : Int) : Bool :=
  (fabric providers cal p d).all (fun s => !asg p d s)

/-- A solution together with its `is_rdo` indicator values satisfies the
internal-medicine RDO constraints: on each group each indicator equals the
all-sessions-zero test of its date, and the indicators of the group sum
to 1. -/
def imRdoOk (providers : List Provider) (cal : Calendar)
    (leave : List LeaveRow) (inpDays : List InpatientDay)
    (holidays : List Int) (eligibleDays : List Weekday)
    (cfg : ProviderConfig) (asg : Asg)
    (rdoAux : Provider → Int → Bool) : Bool :=
  (imRdoGroups providers cal leave inpDays holidays eligibleDays cfg).all
    (fun g =>
      (g.2.all (fun d => rdoAux g.1 d == dayAllZero providers cal asg g.1 d))
        && (g.2.countP (fun d => rdoAux g.1 d) == 1))

/- ------------------------------------------------------------------ -/
/- Random-day-off (RDO) assembler (pediatrics)                        -/
/- ------------------------------------------------------------------ -/

/-- `providers_needing_rdo` membership in the pediatric
`add_rdo_constraints`: the provider is in the configuration and its
`needs_rdo` flag is true. -/
def pedsNeedsRdo (cfg : ProviderConfig) (p : Provider) : Bool :=
  match cfgLookup cfg p with
  | some info => info.needsRdo
  | none => false

/-- `blocked_weeks` membership in the pediatric `add_rdo_constraints`,
under the Sunday-based week key. -/
def pedsBlockedWeek (leave : List LeaveRow) (inpDays : List InpatientDay)
    (holidays : List Int) (cfg : ProviderConfig) (p : Provider)
    (w : Int) : Bool :=
  leave.any (fun r => decide (r.1 = p) && decide (sundayWeekStart r.2 = w)) ||
  inpDays.any (fun r => decide (r.1 = p) && decide (sundayWeekStart r.2 = w)) ||
  (match cfgLookup cfg p with
   | some info =>
       (info.role == "MD" || info.role == "DO") &&
         holidays.any (fun h => decide (sundayWeekStart h = w))
   | none => false)

/-- The groups produced by the pediatric `add_rdo_constraints`: as in
internal medicine but under the Sunday-based week key, and only for
providers needing an RDO — a provider whose `needs_rdo` flag is false (or
who is absent from the configuration) is skipped and gets no
constraint. -/
def pedsRdoGroups (providers : List Provider) (cal : Calendar)
    (leave : List LeaveRow) (inpDays : List InpatientDay)
    (holidays : List Int) (eligibleDays : List Weekday)
    (cfg : ProviderConfig) : List (Provider × List Int) :=
  providers.flatMap (fun p =>
    if pedsNeedsRdo cfg p then
      let eligDates := (fabricDates providers cal p).filter
        (fun d => dateWeekday d ∈ eligibleDays)
      let weeks := (eligDates.map sundayWeekStart).eraseDups
      weeks.filterMap (fun w =>
        if pedsBlockedWeek leave inpDays holidays cfg p w then none
        else
          let ed := eligDates.filter (fun d => decide (sundayWeekStart d = w))
          let ed2 :=
            match (cfgLookup cfg p).bind ProviderInfo.rdoPreference with
            | some pw =>
                let pd := ed.filter (fun d => decide (dateWeekday d = pw))
                if pd.isEmpty then ed else pd
            | none => ed
          if ed2.isEmpty then none else some (p, ed2))
    else [])

/-- The clinic (morning/afternoon) session variables of a provider's
date. -/
def clinicFabric (providers : List Provider) (cal : Calendar)
    (p : Provider) (d : Int) : List Session :=
  (fabric providers cal p d).filter Session.isClinic

/-- The forced value of the pediatric `is_rdo` indicator on a date with
clinic sessions: every clinic session variable of that date is 0. -/
def dayClinicAllZero (providers : List Provider) (cal : Calendar)
    (asg : Asg) (p : Provider) (d : Int) : Bool :=
  (clinicFabric providers cal p d).all (fun s => !asg p d s)

/-- A solution with its `is_rdo` indicator values satisfies the pediatric
RDO constraints: on each group, the indicator of every considered date
with clinic sessions equals the clinic-sessions-all-zero test (on a date
without clinic sessions the indicator is unconstrained by that rule), a
set indicator forces the date's call variable (where one exists) to 0,
and the group's indicators sum to 1.  The post-call soft penalty of the
source only feeds the objective and does not constrain feasibility, so it
does not appear here. -/
def pedsRdoOk (providers : List Provider) (cal : Calendar)
    (leave : List LeaveRow) (inpDays : List InpatientDay)
    (holidays : List Int) (eligibleDays : List Weekday)
    (cfg : ProviderConfig) (asg : Asg)
    (rdoAux : Provider → Int → Bool) : Bool :=
  (pedsRdoGroups providers cal leave inpDays holidays eligibleDays cfg).all
    (fun g =>
      (g.2.all (fun d =>
        (if (clinicFabric providers cal g.1 d).isEmpty then true
         else rdoAux g.1 d == dayClinicAllZero providers cal asg g.1 d)
        && (if Session.call ∈ fabric providers cal g.1 d then
              !rdoAux g.1 d || !asg g.1 d Session.call
            else true)))
        && (g.2.countP (fun d => rdoAux g.1 d) == 1))

/- ------------------------------------------------------------------ -/
/- Weekly clinic-count assemblers                                     -/
/- ------------------------------------------------------------------ -/

/-- `post_inpatient_weeks` for a provider: the week keys of
`start_date + 7` (the Tuesday following the rotation's last Monday). -/
def imPostInpatientWeeks (starts : List InpatientStart) (p : Provider) :
    List Int :=
  starts.filterMap (fun r =>
    if decide (r.provider = p) then some (mondayOf (r.startDate + 7))
    else none)

/-- The hard weekly cap of `add_clinic_count_constraints` (internal
medicine / pediatrics): the configured maximum, reduced by 2 and clamped
at 0 in a post-inpatient week. -/
def imWeekCap (base : Int) (post : Bool) : Int :=
  if post then max 0 (base - 2) else base

/-- Soft weekly minimum target, internal-medicine variant:
`max(1, target_max_clinics - 1)`. -/
def imWeekMinTarget (cap : Int) : Int := max 1 (cap - 1)

/-- Soft weekly minimum target, pediatrics variant:
`max(1, target_max_clinics)`. -/
def pedsWeekMinTarget (cap : Int) : Int := max 1 cap

/-- The (date, session) pairs of a provider's week (internal medicine /
family practice grouping: every session of every fabric date of the
week). -/
def imWeekSessionPairs (providers : List Provider) (cal : Calendar)
    (p : Provider) (w : Int) : List (Int × Session) :=
  ((fabricDates providers cal p).filter (fun d => decide (mondayOf d = w))).flatMap
    (fun d => (fabric providers cal p d).map (fun s => (d, s)))

/-- The week keys for which `weekly_shifts[provider]` holds at least one
variable (internal medicine / family practice). -/
def imProvWeeks (providers : List Provider) (cal : Calendar)
    (p : Provider) : List Int :=
  (((fabricDates providers cal p).filter
      (fun d => !(fabric providers cal p d).isEmpty)).map mondayOf).eraseDups

/-- Number of the week's session variables set to 1. -/
def weekClinicSum (asg : Asg) (p : Provider)
    (pairs : List (Int × Session)) : Nat :=
  pairs.countP (fun e => asg p e.1 e.2)

/-- A solution together with its `under_min` integer values satisfies
`add_clinic_count_constraints` (internal medicine): per configured
provider and week, the weekly sum respects the hard cap, and
`sum + under_min >= max(1, cap - 1)` with `under_min` in 0..10. -/
def imClinicCountOk (providers : List Provider) (cal : Calendar)
    (cfg : ProviderConfig) (starts : List InpatientStart) (asg : Asg)
    (underMin : Provider → Int → Int) : Bool :=
  providers.all (fun p =>
    match cfgLookup cfg p with
    | none => true
    | some info =>
        (imProvWeeks providers cal p).all (fun w =>
          let cap := imWeekCap info.maxClinicsPerWeek
            ((imPostInpatientWeeks starts p).contains w)
          let s : Int := weekClinicSum asg p (imWeekSessionPairs providers cal p w)
          decide (s ≤ cap) && decide (0 ≤ underMin p w) &&
            decide (underMin p w ≤ 10) &&
            decide (imWeekMinTarget cap ≤ s + underMin p w)))

/-- `post_inpatient_weeks` under the pediatric Sunday-based week key. -/
def pedsPostInpatientWeeks (starts : List InpatientStart) (p : Provider) :
    List Int :=
  starts.filterMap (fun r =>
    if decide (r.provider = p) then some (sundayWeekStart (r.startDate + 7))
    else none)

/-- The clinic (morning/afternoon) session pairs of a provider's pediatric
week (Sunday-based grouping, call sessions not counted). -/
def pedsWeekClinicPairs (providers : List Provider) (cal : Calendar)
    (p : Provider) (w : Int) : List (Int × Session) :=
  ((fabricDates providers cal p).filter
      (fun d => decide (sundayWeekStart d = w))).flatMap
    (fun d => ((fabric providers cal p d).filter Session.isClinic).map
      (fun s => (d, s)))

/-- The pediatric week keys holding at least one clinic variable for the
provider. -/
def pedsProvWeeks (providers : List Provider) (cal : Calendar)
    (p : Provider) : List Int :=
  (((fabricDates providers cal p).filter
      (fun d => !((fabric providers cal p d).filter Session.isClinic).isEmpty)).map
    sundayWeekStart).eraseDups

/-- A solution with its `under_min` values satisfies
`add_clinic_count_constraints` (pediatrics): same shape as internal
medicine but with clinic-only sessions, Sunday-based weeks and the
`max(1, cap)` minimum target. -/
def pedsClinicCountOk (providers : List Provider) (cal : Calendar)
    (cfg : ProviderConfig) (starts : List InpatientStart) (asg : Asg)
    (underMin : Provider → Int → Int) : Bool :=
  providers.all (fun p =>
    match cfgLookup cfg p with
    | none => true
    | some info =>
        (pedsProvWeeks providers cal p).all (fun w =>
          let cap := imWeekCap info.maxClinicsPerWeek
            ((pedsPostInpatientWeeks starts p).contains w)
          let s : Int := weekClinicSum asg p (pedsWeekClinicPairs providers cal p w)
          decide (s ≤ cap) && decide (0 ≤ underMin p w) &&
            decide (underMin p w ≤ 10) &&
            decide (pedsWeekMinTarget cap ≤ s + underMin p w)))

/-- A row of the pediatric schedule table consumed by the family-practice
assemblers; `providers` models the comma-split provider list. -/
structure PedsRow where
  date : Int
  session : Session
  providers : List Provider
deriving DecidableEq, Repr

/-- `peds_clinics_by_provider_week`: how many pediatric morning/afternoon
sessions the provider already works in the (ISO) week. -/
def pedsClinicsCount (rows : List PedsRow) (p : Provider) (w : Int) :
    Int :=
  (rows.filter (fun r =>
      r.session.isClinic && decide (mondayOf r.date = w))).foldl
    (fun a r => a + (r.providers.count p : Int)) 0

/-- The adjusted hard weekly cap of the family-practice
`add_clinic_count_constraints`: post-inpatient reduction by 2 (clamped at
0), then reduction by the provider's pediatric clinic sessions of the
week, clamped at 0. -/
def fpAdjustedCap (base : Int) (post : Bool) (pedsCount : Int) : Int :=
  max 0 ((if post then max 0 (base - 2) else base) - pedsCount)

/-- The family-practice soft minimum target: `max(0, adjusted_max)`,
overridden to 0 when `adjusted_max <= 1`. -/
def fpMinTarget (cap : Int) : Int :=
  let m := max 0 cap
  if cap ≤ 1 then 0 else m

/-- A solution with its `under_min` values satisfies
`add_clinic_count_constraints` (family practice). -/
def fpClinicCountOk (providers : List Provider) (cal : Calendar)
    (cfg : ProviderConfig) (starts : List InpatientStart)
    (rows : List PedsRow) (asg : Asg)
    (underMin : Provider → Int → Int) : Bool :=
  providers.all (fun p =>
    match cfgLookup cfg p with
    | none => true
    | some info =>
        (imProvWeeks providers cal p).all (fun w =>
          let cap := fpAdjustedCap info.maxClinicsPerWeek
            ((imPostInpatientWeeks starts p).contains w)
            (pedsClinicsCount rows p w)
          let s : Int := weekClinicSum asg p (imWeekSessionPairs providers cal p w)
          decide (s ≤ cap) && decide (0 ≤ underMin p w) &&
            decide (underMin p w ≤ 10) &&
            decide (fpMinTarget cap ≤ s + underMin p w)))

/- ------------------------------------------------------------------ -/
/- Lemmas about the feasibility search controller                     -/
/- ------------------------------------------------------------------ -/

theorem mem_descendingFrom (k t : Nat) : t ∈ descendingFrom k ↔ t ≤ k := by
  induction k with
  | zero => simp [descendingFrom]
  | succ n ih =>
    simp only [descendingFrom, List.mem_cons, ih]
    omega

theorem descendingFrom_pairwise (k : Nat) :
    (descendingFrom k).Pairwise (fun a b => b < a) := by
  induction k with
  | zero => simp [descendingFrom]
  | succ n ih =>
    refine List.Pairwise.cons ?_ ih
    intro b hb
    have := (mem_descendingFrom n b).1 hb
    omega

theorem descendingFrom_ne_nil (k : Nat) : descendingFrom k ≠ [] := by
  cases k <;> simp [descendingFrom]

/-- In search mode the loop that ends with a stored solution stopped at
the first successful threshold: the reported threshold succeeded and every
earlier (hence, the list being descending, every larger) threshold of the
list failed. -/
theorem engineLoop_search_success (solve : Solver) (vals : List Nat)
    (acc : Nat) (t : Nat) (st : CpStatus) (total : Nat)
    (hsort : vals.Pairwise (fun a b => b < a))
    (h : engineLoop true solve vals acc none =
      .finished (some (t, st)) total) :
    st = (solve t).status ∧ (solve t).status.isSuccess = true ∧
      ∀ t2 ∈ vals, t < t2 → (solve t2).status.isSuccess = false := by
  induction vals generalizing acc with
  | nil => simp [engineLoop] at h
  | cons v rest ih =>
    by_cases hs : (solve v).status.isSuccess
    · simp only [engineLoop, hs, if_true] at h
      obtain ⟨h1, h2⟩ := LoopExit.finished.inj h
      obtain ⟨rfl, rfl⟩ : v = t ∧ (solve v).status = st := by simpa using h1
      refine ⟨rfl, hs, ?_⟩
      intro t2 ht2 hlt
      rcases List.mem_cons.1 ht2 with rfl | hmem
      · omega
      · have := (List.pairwise_cons.1 hsort).1 t2 hmem
        omega
    · simp only [engineLoop, hs, if_false, Bool.false_eq_true] at h
      have ih2 := ih (acc + (solve v).wallTime) (List.pairwise_cons.1 hsort).2 h
      refine ⟨ih2.1, ih2.2.1, ?_⟩
      intro t2 ht2 hlt
      rcases List.mem_cons.1 ht2 with rfl | hmem
      · simpa using hs
      · exact ih2.2.2 t2 hmem hlt

/-- In search mode, when every threshold of the list fails the loop ends
with no stored solution and the accumulated wall time of every attempt. -/
theorem engineLoop_search_allFail (solve : Solver) (vals : List Nat)
    (acc : Nat)
    (h : ∀ v ∈ vals, (solve v).status.isSuccess = false) :
    engineLoop true solve vals acc none =
      .finished none (acc + (vals.map (fun v => (solve v).wallTime)).sum) := by
  induction vals generalizing acc with
  | nil => simp [engineLoop]
  | cons v rest ih =>
    have hv := h v (List.mem_cons_self v rest)
    have hrest : ∀ u ∈ rest, (solve u).status.isSuccess = false :=
      fun u hu => h u (List.mem_cons_of_mem v hu)
    simp only [engineLoop, hv, if_false, Bool.false_eq_true, if_true]
    rw [ih (acc + (solve v).wallTime) hrest]
    simp [Nat.add_assoc]

/-- A loop ending with a stored solution got it either from its initial
`best` or from a successful solve of the reported threshold. -/
theorem engineLoop_finished_some (search : Bool) (solve : Solver)
    (vals : List Nat) (acc : Nat) (best : Option (Nat × CpStatus))
    (t : Nat) (st : CpStatus) (total : Nat)
    (h : engineLoop search solve vals acc best =
      .finished (some (t, st)) total) :
    best = some (t, st) ∨
      ((solve t).status.isSuccess = true ∧ st = (solve t).status) := by
  induction vals generalizing acc best with
  | nil =>
    simp only [engineLoop, LoopExit.finished.injEq] at h
    exact .inl h.1
  | cons v rest ih =>
    by_cases hs : (solve v).status.isSuccess
    · cases search with
      | true =>
        simp only [engineLoop, hs, if_true] at h
        obtain ⟨h1, h2⟩ := LoopExit.finished.inj h
        obtain ⟨rfl, rfl⟩ : v = t ∧ (solve v).status = st := by simpa using h1
        exact .inr ⟨hs, rfl⟩
      | false =>
        simp only [engineLoop, hs, if_true, Bool.false_eq_true, if_false] at h
        rcases ih (acc + (solve v).wallTime) (some (v, (solve v).status)) h with
          hbest | hok
        · obtain ⟨rfl, rfl⟩ : v = t ∧ (solve v).status = st := by simpa using hbest
          exact .inr ⟨hs, rfl⟩
        · exact .inr hok
    · cases search with
      | true =>
        simp only [engineLoop, hs, if_false, Bool.false_eq_true, if_true] at h
        exact ih (acc + (solve v).wallTime) best h
      | false =>
        simp only [engineLoop, hs, if_false, Bool.false_eq_true] at h
        cases h

/-- In search mode the loop never takes the direct-return exit. -/
theorem engineLoop_search_ne_direct (solve : Solver) (vals : List Nat)
    (acc : Nat) (best : Option (Nat × CpStatus)) (t : Nat) (st : CpStatus)
    (w total : Nat) :
    engineLoop true solve vals acc best ≠ .directReturn t st w total := by
  induction vals generalizing acc best with
  | nil => simp [engineLoop]
  | cons v rest ih =>
    by_cases hs : (solve v).status.isSuccess
    · simp [engineLoop, hs]
    · simpa [engineLoop, hs] using ih (acc + (solve v).wallTime) best

/-- Claim C1: with min_staffing_search enabled and initial threshold k, the
controller attempts thresholds in strictly descending order k, k-1, ..., 0
and returns the solution of the first (hence highest) threshold at which
the solver reports optimal or feasible; no threshold above the reported
one succeeded, so the run never reports a solution at a lower threshold
than one at which a solve already succeeded; the pediatric creation
function, running the identical loop, materializes its tables from the
same first successful threshold (the family-practice function shares the
internal-medicine control flow verbatim). -/
theorem searchController_monotonic {α β γ : Type} (k configMin : Nat)
    (solve : Solver) (mat : Nat → α) (summ : Nat → β) (callSumm : Nat → γ)
    (minAchieved : Nat → Nat) (t : Nat) (st : CpStatus) (total : Nat)
    (h : (createImScheduleModel true k configMin solve mat summ).status =
      .solved st t total) :
    ((descendingFrom k).Pairwise (fun a b => b < a) ∧
      (∀ t2, t2 ∈ descendingFrom k ↔ t2 ≤ k))
    ∧ (solve t).status.isSuccess = true
    ∧ st = (solve t).status
    ∧ (∀ t2, t2 ≤ k → (solve t2).status.isSuccess = true → t2 ≤ t)
    ∧ (createImScheduleModel true k configMin solve mat summ).schedule =
        some (mat t)
    ∧ createPedsScheduleModel true k configMin solve mat summ callSumm
        minAchieved =
        .quad (some (mat t)) (some (summ t)) (some (callSumm t))
          (.solved st (minAchieved t) total) := by
  have hloop : engineLoop true solve (descendingFrom k) 0 none =
      .finished (some (t, st)) total := by
    unfold createImScheduleModel at h
    simp only [if_true] at h
    cases hl : engineLoop true solve (descendingFrom k) 0 none with
    | directReturn a b c d =>
      exact absurd hl (engineLoop_search_ne_direct solve _ 0 none a b c d)
    | finished best tot =>
      cases best with
      | none =>
        rw [hl] at h
        simp at h
      | some pr =>
        obtain ⟨t0, st0⟩ := pr
        rw [hl] at h
        simp only [StatusRecord.solved.injEq] at h
        rw [h.1, h.2.1, h.2.2]
  have hfirst := engineLoop_search_success solve (descendingFrom k) 0
    t st total (descendingFrom_pairwise k) hloop
  refine ⟨⟨descendingFrom_pairwise k, fun t2 => mem_descendingFrom k t2⟩,
    hfirst.2.1, hfirst.1, ?_, ?_, ?_⟩
  · intro t2 hle hsucc
    by_contra hgt
    have hmem : t2 ∈ descendingFrom k := (mem_descendingFrom k t2).2 hle
    have := hfirst.2.2 t2 hmem (by omega)
    rw [this] at hsucc
    cases hsucc
  · unfold createImScheduleModel
    simp only [if_true]
    rw [hloop]
  · unfold createPedsScheduleModel
    simp only [if_true]
    rw [hloop]

/-- Concrete run for claim C1: initial threshold 2, the solver succeeding
exactly at threshold 1; the controller reports threshold 1. -/
theorem searchController_monotonic_witness :
    ((createImScheduleModel true 2 3
        (fun t => ⟨if t = 1 then .optimal else .infeasible, 1⟩)
        (fun t => t) (fun t => t)).status = .solved .optimal 1 2)
    ∧ (createImScheduleModel true 2 3
        (fun t => ⟨if t = 1 then .optimal else .infeasible, 1⟩)
        (fun t => t) (fun t => t)).schedule = some 1 := by
  refine ⟨by decide, ?_⟩
  have := searchController_monotonic 2 3
    (fun t => ⟨if t = 1 then .optimal else .infeasible, 1⟩)
    (fun t => t) (fun t => t) (fun t => t) (fun t => t) 1 .optimal 2
    (by decide)
  exact this.2.2.2.2.1

/-- Claim C7: when every attempted threshold fails in search mode the
engine returns no schedule and no summary, with a status record carrying
the full threshold list and the cumulative solve time; and in any mode a
returned schedule always comes from a threshold whose solve succeeded. -/
theorem exhaustion_reporting {α β : Type} (k configMin : Nat)
    (solve : Solver) (mat : Nat → α) (summ : Nat → β)
    (hall : ∀ v ∈ descendingFrom k, (solve v).status.isSuccess = false) :
    createImScheduleModel true k configMin solve mat summ =
      ⟨none, none, .exhausted (descendingFrom k)
        (((descendingFrom k).map (fun v => (solve v).wallTime)).sum)⟩
    ∧ (∀ (search : Bool) (s : α),
        (createImScheduleModel search k configMin solve mat summ).schedule =
          some s →
        ∃ u, (solve u).status.isSuccess = true ∧ s = mat u) := by
  constructor
  · unfold createImScheduleModel
    simp only [if_true]
    rw [engineLoop_search_allFail solve (descendingFrom k) 0 hall]
    simp
  · intro search s hs
    unfold createImScheduleModel at hs
    cases hloop : engineLoop search solve (if search then descendingFrom k
        else [configMin]) 0 none with
    | directReturn a b c d =>
      rw [hloop] at hs
      simp at hs
    | finished best tot =>
      cases best with
      | none =>
        rw [hloop] at hs
        simp at hs
      | some pr =>
        obtain ⟨u, stu⟩ := pr
        rw [hloop] at hs
        simp only [Option.some.injEq] at hs
        rcases engineLoop_finished_some search solve _ 0 none u stu tot
          hloop with hnone | hok
        · cases hnone
        · exact ⟨u, hok.1, hs.symm⟩

/-- Concrete run for claim C7: both thresholds 1 and 0 fail with wall
times 2 and 3; the engine returns (none, none, exhausted [1, 0], 5). -/
theorem exhaustion_reporting_witness :
    createImScheduleModel true 1 3
      (fun t => ⟨.infeasible, t + 2⟩) (fun t => t) (fun t => t) =
      ⟨none, none, .exhausted [1, 0] 5⟩ := by
  have := exhaustion_reporting 1 3 (fun t => ⟨.infeasible, t + 2⟩)
    (fun t => t) (fun t => t) (by decide)
  rw [this.1]
  decide

/-- Claim C10: create_peds_schedule returns a 4-tuple in search mode (both
on success and on exhaustion), but a 3-tuple (None, None, status) when
min_staffing_search is False and the single solve attempt is not optimal
or feasible. -/
theorem peds_return_arity {α β γ : Type} (k configMin : Nat)
    (solve : Solver) (mat : Nat → α) (summ : Nat → β) (callSumm : Nat → γ)
    (minAchieved : Nat → Nat)
    (hfail : (solve configMin).status.isSuccess = false) :
    (createPedsScheduleModel true k configMin solve mat summ callSumm
      minAchieved).arity = 4
    ∧ createPedsScheduleModel false k configMin solve mat summ callSumm
        minAchieved =
        .triple none none (.directFail (solve configMin).status configMin
          (solve configMin).wallTime (solve configMin).wallTime)
    ∧ (createPedsScheduleModel false k configMin solve mat summ
        callSumm minAchieved).arity = 3 := by
  have hdirect : createPedsScheduleModel false k configMin solve mat summ
      callSumm minAchieved =
      .triple none none (.directFail (solve configMin).status configMin
        (solve configMin).wallTime (solve configMin).wallTime) := by
    unfold createPedsScheduleModel
    simp only [Bool.false_eq_true, if_false]
    rw [engineLoop]
    simp [engineLoop, hfail]
  refine ⟨?_, hdirect, by rw [hdirect]; rfl⟩
  unfold createPedsScheduleModel
  simp only [if_true]
  cases hloop : engineLoop true solve (descendingFrom k) 0 none with
  | directReturn a b c d =>
    exact absurd hloop (engineLoop_search_ne_direct solve _ 0 none a b c d)
  | finished best tot =>
    cases best with
    | none => rfl
    | some pr =>
      obtain ⟨t0, st0⟩ := pr
      rfl

/-- Concrete run for claim C10: a solver that always reports infeasible
with wall time 4; direct mode returns the 3-tuple, search mode the
4-tuple. -/
theorem peds_return_arity_witness :
    (createPedsScheduleModel true 2 3 (fun _ => ⟨.infeasible, 4⟩)
      (fun t => t) (fun t => t) (fun t => t) (fun t => t)).arity = 4
    ∧ createPedsScheduleModel false 2 3 (fun _ => ⟨.infeasible, 4⟩)
        (fun t => t) (fun t => t) (fun t => t) (fun t => t) =
        .triple none none (.directFail .infeasible 3 4 4) := by
  have := peds_return_arity 2 3 (fun _ => ⟨.infeasible, 4⟩)
    (fun t => t) (fun t => t) (fun t => t) (fun t => t) (by decide)
  exact ⟨this.1, this.2.1⟩

/- ------------------------------------------------------------------ -/
/- Calendar builder lemmas                                            -/
/- ------------------------------------------------------------------ -/

theorem mem_rangeDates (s e d : Int) :
    d ∈ rangeDates s e ↔ s ≤ d ∧ d ≤ e := by
  simp only [rangeDates, List.mem_map, List.mem_range]
  constructor
  · rintro ⟨i, hi, rfl⟩
    omega
  · intro hd
    exact ⟨(d - s).toNat, by omega, by omega⟩

/-- Key characterization of the clinic calendar, for configurations whose
declared clinic weekdays all map to a nonempty session list. -/
theorem isKey_clinicCalendar (s e : Int) (rules : CalRules)
    (cal : Calendar)
    (hwf : ∀ w ∈ rules.clinicDays, sessionsFor rules w ≠ [])
    (hc : generateClinicCalendar s e rules = .ok cal) (d : Int) :
    isCalKey cal d ↔
      s ≤ d ∧ d ≤ e ∧ d ∉ rules.holidayDates ∧
        dateWeekday d ∈ rules.clinicDays := by
  unfold generateClinicCalendar at hc
  split at hc
  · cases hc
  · obtain rfl := Except.ok.inj hc
    constructor
    · rintro ⟨ss, hss⟩
      rw [List.mem_filterMap] at hss
      obtain ⟨d0, hd0, hf⟩ := hss
      by_cases hcond : dateWeekday d0 ∈ rules.clinicDays ∧
          d0 ∉ rules.holidayDates
      · rw [if_pos hcond] at hf
        by_cases hemp : (sessionsFor rules (dateWeekday d0)).isEmpty
        · rw [if_pos hemp] at hf
          cases hf
        · rw [if_neg hemp] at hf
          have hinj := Option.some.inj hf
          obtain ⟨rfl, rfl⟩ : d0 = d ∧ sessionsFor rules (dateWeekday d0) = ss :=
            ⟨congrArg Prod.fst hinj, congrArg Prod.snd hinj⟩
          have hd := (mem_rangeDates s e _).1 hd0
          exact ⟨hd.1, hd.2, hcond.2, hcond.1⟩
      · rw [if_neg hcond] at hf
        cases hf
    · rintro ⟨h1, h2, h3, h4⟩
      refine ⟨sessionsFor rules (dateWeekday d), ?_⟩
      rw [List.mem_filterMap]
      refine ⟨d, (mem_rangeDates s e d).2 ⟨h1, h2⟩, ?_⟩
      have hne := hwf _ h4
      simp only [h4, h3, and_true, true_and, not_false_iff, if_true]
      rw [if_neg]
      simp only [List.isEmpty_iff]
      exact hne

/-- Key characterization of the pediatric calendar under the same
configuration well-formedness. -/
theorem isKey_pediatricCalendar (s e : Int) (rules : CalRules)
    (pcal : Calendar)
    (hwf : ∀ w ∈ rules.clinicDays, sessionsFor rules w ≠ [])
    (hp : generatePediatricCalendar s e rules = .ok pcal) (d : Int) :
    isCalKey pcal d ↔
      s ≤ d ∧ d ≤ e ∧ d ∉ rules.holidayDates ∧
        (dateWeekday d ∈ rules.clinicDays ∨
          dateWeekday d ∈ rules.callDays) := by
  unfold generatePediatricCalendar at hp
  split at hp
  · cases hp
  · obtain rfl := Except.ok.inj hp
    constructor
    · rintro ⟨ss, hss⟩
      rw [List.mem_filterMap] at hss
      obtain ⟨d0, hd0, hf⟩ := hss
      by_cases hhol : d0 ∈ rules.holidayDates
      · rw [if_pos hhol] at hf
        cases hf
      · rw [if_neg hhol] at hf
        by_cases hemp : ((if dateWeekday d0 ∈ rules.clinicDays then
            sessionsFor rules (dateWeekday d0) else []) ++
          (if dateWeekday d0 ∈ rules.callDays then [Session.call]
            else [])).isEmpty
        · rw [if_pos hemp] at hf
          cases hf
        · rw [if_neg hemp] at hf
          have hinj := Option.some.inj hf
          obtain ⟨rfl, rfl⟩ : d0 = d ∧ _ = ss :=
            ⟨congrArg Prod.fst hinj, congrArg Prod.snd hinj⟩
          have hd := (mem_rangeDates s e _).1 hd0
          refine ⟨hd.1, hd.2, hhol, ?_⟩
          by_contra hnot
          push_neg at hnot
          rw [if_neg hnot.1, if_neg hnot.2] at hemp
          simp at hemp
    · rintro ⟨h1, h2, h3, h4⟩
      refine ⟨(if dateWeekday d ∈ rules.clinicDays then
          sessionsFor rules (dateWeekday d) else []) ++
        (if dateWeekday d ∈ rules.callDays then [Session.call] else []), ?_⟩
      rw [List.mem_filterMap]
      refine ⟨d, (mem_rangeDates s e d).2 ⟨h1, h2⟩, ?_⟩
      rw [if_neg h3, if_neg]
      simp only [List.isEmpty_iff, List.append_eq_nil]
      rcases h4 with h4 | h4
      · intro hcon
        rw [if_pos h4] at hcon
        exact hwf _ h4 hcon.1
      · intro hcon
        rw [if_pos h4] at hcon
        cases hcon.2

/-- Every in-range non-holiday call-eligible date of the pediatric
calendar carries an appended call session. -/
theorem call_in_pediatricCalendar (s e : Int) (rules : CalRules)
    (pcal : Calendar)
    (hp : generatePediatricCalendar s e rules = .ok pcal) (d : Int)
    (h1 : s ≤ d) (h2 : d ≤ e) (h3 : d ∉ rules.holidayDates)
    (h4 : dateWeekday d ∈ rules.callDays) :
    ∃ ss, (d, ss) ∈ pcal ∧ Session.call ∈ ss := by
  unfold generatePediatricCalendar at hp
  split at hp
  · cases hp
  · obtain rfl := Except.ok.inj hp
    refine ⟨(if dateWeekday d ∈ rules.clinicDays then
        sessionsFor rules (dateWeekday d) else []) ++
      (if dateWeekday d ∈ rules.callDays then [Session.call] else []), ?_, ?_⟩
    · rw [List.mem_filterMap]
      refine ⟨d, (mem_rangeDates s e d).2 ⟨h1, h2⟩, ?_⟩
      rw [if_neg h3, if_neg]
      simp only [List.isEmpty_iff, List.append_eq_nil]
      intro hcon
      rw [if_pos h4] at hcon
      cases hcon.2
    · rw [if_pos h4]
      simp

/-- Claim C3: for start <= end (and each declared clinic weekday mapped to
a nonempty session list), a date is a key of the generated calendar iff it
is in range, not a holiday, and its weekday is clinic-eligible or
(pediatric) call-eligible; no out-of-range date appears; and in the
pediatric calendar every in-range non-holiday call-day date carries a
call session even without clinic sessions. -/
theorem calendar_keys (s e : Int) (rules : CalRules) (cal pcal : Calendar)
    (hrange : s ≤ e)
    (hwf : ∀ w ∈ rules.clinicDays, sessionsFor rules w ≠ [])
    (hc : generateClinicCalendar s e rules = .ok cal)
    (hp : generatePediatricCalendar s e rules = .ok pcal) :
    (∀ d, isCalKey cal d ↔
      s ≤ d ∧ d ≤ e ∧ d ∉ rules.holidayDates ∧
        dateWeekday d ∈ rules.clinicDays)
    ∧ (∀ d, isCalKey pcal d ↔
        s ≤ d ∧ d ≤ e ∧ d ∉ rules.holidayDates ∧
          (dateWeekday d ∈ rules.clinicDays ∨
            dateWeekday d ∈ rules.callDays))
    ∧ (∀ d, isCalKey cal d ∨ isCalKey pcal d → s ≤ d ∧ d ≤ e)
    ∧ (∀ d, s ≤ d → d ≤ e → d ∉ rules.holidayDates →
        dateWeekday d ∈ rules.callDays →
        ∃ ss, (d, ss) ∈ pcal ∧ Session.call ∈ ss) := by
  refine ⟨fun d => isKey_clinicCalendar s e rules cal hwf hc d,
    fun d => isKey_pediatricCalendar s e rules pcal hwf hp d, ?_, ?_⟩
  · intro d hd
    rcases hd with hd | hd
    · have := (isKey_clinicCalendar s e rules cal hwf hc d).1 hd
      exact ⟨this.1, this.2.1⟩
    · have := (isKey_pediatricCalendar s e rules pcal hwf hp d).1 hd
      exact ⟨this.1, this.2.1⟩
  · exact fun d h1 h2 h3 h4 =>
      call_in_pediatricCalendar s e rules pcal hp d h1 h2 h3 h4

/-- The concrete rules of the C3 witness: Monday/Tuesday clinic, Sunday
call, a holiday on date 1 (a Tuesday); date 0 is a Monday. -/
def rulesW : CalRules :=
  ⟨[Weekday.monday, Weekday.tuesday],
    [(Weekday.monday, [Session.morning, Session.afternoon]),
      (Weekday.tuesday, [Session.morning, Session.afternoon])],
    [Weekday.sunday], [(1 : Int)]⟩

/-- Concrete run for claim C3 over two weeks: the Sunday date 13 (no
clinic sessions) is a key of the pediatric calendar. -/
theorem calendar_keys_witness :
    isCalKey [((0 : Int), [Session.morning, Session.afternoon]),
      (6, [Session.call]), (7, [Session.morning, Session.afternoon]),
      (8, [Session.morning, Session.afternoon]), (13, [Session.call])]
      13 := by
  have hmain := calendar_keys 0 13 rulesW
    [((0 : Int), [Session.morning, Session.afternoon]),
      (7, [Session.morning, Session.afternoon]),
      (8, [Session.morning, Session.afternoon])]
    [((0 : Int), [Session.morning, Session.afternoon]),
      (6, [Session.call]), (7, [Session.morning, Session.afternoon]),
      (8, [Session.morning, Session.afternoon]), (13, [Session.call])]
    (by decide) (by decide) rfl rfl
  obtain ⟨ss, hss, _⟩ :=
    hmain.2.2.2 13 (by decide) (by decide) (by decide) (by decide)
  exact ⟨ss, hss⟩

/- ------------------------------------------------------------------ -/
/- Staffing bounds (claim C2)                                         -/
/- ------------------------------------------------------------------ -/

/-- `add_inpatient_block_constraints` (pediatrics): same blocked dates,
but call sessions are skipped (`if session != 'call'`). -/
def pedsInpatientZeroTriples (providers : List Provider) (cal : Calendar)
    (starts : List InpatientStart) (days : List InpatientDay) :
    List (Provider × Int × Session) :=
  (inpatientBlockedPairs starts days).flatMap (fun pd =>
    ((fabric providers cal pd.1 pd.2).filter
        (fun s => decide (s ≠ Session.call))).map (fun s => (pd.1, pd.2, s)))

theorem staffingOk_bounds (asg : Asg) (cs : List SlotBound) (c : SlotBound)
    (hok : staffingOk asg cs = true) (hc : c ∈ cs) :
    c.lo ≤ slotCount asg c ∧ slotCount asg c ≤ c.hi := by
  rw [staffingOk, List.all_eq_true] at hok
  have := hok c hc
  simpa using this

theorem slotBound_mem_imStaffing (providers : List Provider)
    (cal : Calendar) (minS maxS : Nat) (d : Int) (ss : List Session)
    (s : Session) (hmem : (d, ss) ∈ cal) (hs : s ∈ ss)
    (hstaff : slotStaff providers cal d s ≠ []) :
    (⟨d, s, slotStaff providers cal d s, minS, maxS⟩ : SlotBound) ∈
      imStaffingConstraints providers cal minS maxS := by
  simp only [imStaffingConstraints, List.mem_flatMap, List.mem_filterMap]
  refine ⟨(d, ss), hmem, s, hs, ?_⟩
  rw [if_neg (by simpa [List.isEmpty_iff] using hstaff)]

theorem slotBound_mem_pedsStaffing (providers : List Provider)
    (cal : Calendar) (minS maxS : Nat) (d : Int) (ss : List Session)
    (s : Session) (hmem : (d, ss) ∈ cal) (hs : s ∈ ss)
    (hcl : s.isClinic = true)
    (hstaff : slotStaff providers cal d s ≠ []) :
    (⟨d, s, slotStaff providers cal d s, minS, maxS⟩ : SlotBound) ∈
      pedsStaffingConstraints providers cal minS maxS := by
  simp only [pedsStaffingConstraints, List.mem_flatMap, List.mem_filterMap]
  refine ⟨(d, ss), hmem, s, List.mem_filter.2 ⟨hs, hcl⟩, ?_⟩
  rw [if_neg (by simpa [List.isEmpty_iff] using hstaff)]

/-- Claim C2 (amended): in every solved schedule, every calendar slot
whose session is a clinic session (morning/afternoon) and whose staff list
is nonempty carries between min and max providers — in internal medicine
and family practice this covers every calendar slot, while the pediatrics
assembler excludes the call session from the staffing bounds (call slots
are instead pinned to exactly one provider by the call assembler). -/
theorem staffing_bounds_amended (providers : List Provider) (cal : Calendar)
    (minS maxS : Nat) (asg : Asg) (d : Int) (ss : List Session)
    (s : Session) (hmem : (d, ss) ∈ cal) (hs : s ∈ ss)
    (hstaff : slotStaff providers cal d s ≠ []) :
    (staffingOk asg (imStaffingConstraints providers cal minS maxS) = true →
      minS ≤ (slotStaff providers cal d s).countP (fun p => asg p d s)
      ∧ (slotStaff providers cal d s).countP (fun p => asg p d s) ≤ maxS)
    ∧ (s.isClinic = true →
      staffingOk asg (pedsStaffingConstraints providers cal minS maxS) =
        true →
      minS ≤ (slotStaff providers cal d s).countP (fun p => asg p d s)
      ∧ (slotStaff providers cal d s).countP (fun p => asg p d s) ≤ maxS) := by
  constructor
  · intro hok
    exact staffingOk_bounds asg _ _ hok
      (slotBound_mem_imStaffing providers cal minS maxS d ss s hmem hs hstaff)
  · intro hcl hok
    exact staffingOk_bounds asg _ _ hok
      (slotBound_mem_pedsStaffing providers cal minS maxS d ss s hmem hs hcl
        hstaff)

/-- Providers of the C2 counterexample. -/
def provsC2 : List Provider := ["ann", "bob"]

/-- Calendar of the C2 counterexample: one date with a morning clinic
session and a call session. -/
def calC2 : Calendar := [(0, [Session.morning, Session.call])]

/-- Provider configuration of the C2 counterexample. -/
def cfgC2 : ProviderConfig :=
  [("ann", ⟨"MD", 10, none, true⟩), ("bob", ⟨"MD", 10, none, true⟩)]

/-- Solution of the C2 counterexample: both providers work the morning
clinic, ann alone takes call. -/
def asgC2 : Asg := fun p _ s =>
  s == Session.morning || (s == Session.call && p == "ann")

/-- Claim C2 counterexample: with minimum staffing 2 in force, the
pediatric staffing assembler emits no bound for the call slot, and the
exhibited solution satisfies the pediatric staffing, call, blocking,
post-call and clinic-count constraints while staffing the call slot with
a single provider — below the minimum bound the claim asserts. -/
theorem staffing_bounds_counterexample :
    ((0, [Session.morning, Session.call]) ∈ calC2
      ∧ Session.call ∈ [Session.morning, Session.call])
    ∧ (pedsStaffingConstraints provsC2 calC2 2 5).all
        (fun c => decide (c.session ≠ Session.call)) = true
    ∧ staffingOk asgC2 (pedsStaffingConstraints provsC2 calC2 2 5) = true
    ∧ pedsCallExactlyOneOk provsC2 calC2 asgC2 = true
    ∧ zeroTriplesOk asgC2 (leaveZeroTriples provsC2 calC2 []) = true
    ∧ zeroTriplesOk asgC2 (pedsInpatientZeroTriples provsC2 calC2 [] []) =
        true
    ∧ pedsPostCallOk provsC2 calC2 asgC2 = true
    ∧ pedsClinicCountOk provsC2 calC2 cfgC2 [] asgC2 (fun _ _ => 9) = true
    ∧ (slotStaff provsC2 calC2 0 Session.call).countP
        (fun p => asgC2 p 0 Session.call) = 1
    ∧ ¬ (2 ≤ (slotStaff provsC2 calC2 0 Session.call).countP
        (fun p => asgC2 p 0 Session.call)) := by decide

/-- Concrete run for amended claim C2: the morning slot of the
counterexample calendar carries 2 providers, within the bounds [2, 5]. -/
theorem staffing_bounds_amended_witness :
    2 ≤ (slotStaff provsC2 calC2 0 Session.morning).countP
        (fun p => asgC2 p 0 Session.morning)
    ∧ (slotStaff provsC2 calC2 0 Session.morning).countP
        (fun p => asgC2 p 0 Session.morning) ≤ 5 := by
  exact (staffing_bounds_amended provsC2 calC2 2 5 asgC2 0
    [Session.morning, Session.call] Session.morning (by decide) (by decide)
    (by decide)).2 (by decide) (by decide)

/- ------------------------------------------------------------------ -/
/- Inpatient blocking (claim C5)                                      -/
/- ------------------------------------------------------------------ -/

theorem zeroTriplesOk_mem (asg : Asg) (ts : List (Provider × Int × Session))
    (hok : zeroTriplesOk asg ts = true) (tr : Provider × Int × Session)
    (htr : tr ∈ ts) : asg tr.1 tr.2.1 tr.2.2 = false := by
  rw [zeroTriplesOk, List.all_eq_true] at hok
  simpa using hok tr htr

/-- Claim C5 counterexample: a rotation starting on date 3 (a Thursday)
has pre-relief date 2, a Wednesday — not the configured Monday — yet
`add_inpatient_block_constraints` still blocks every session variable on
it; the weekday-conditioned behaviour the claim describes exists only in
the unused draft `add_inpatient_rdo_constraints`, which skips both relief
dates here. -/
theorem inpatient_relief_counterexample :
    dateWeekday 2 ≠ Weekday.monday
    ∧ ("ann", 2, Session.morning) ∈
        imInpatientZeroTriples ["ann"] [(2, [Session.morning])]
          [⟨"ann", 3⟩] []
    ∧ imInpatientRdoZeroTriples ["ann"] [(2, [Session.morning])]
        [⟨"ann", 3⟩] Weekday.monday Weekday.friday = [] := by decide

/-- Claim C5 (amended): for every inpatient rotation record,
`add_inpatient_block_constraints` forces to 0 every session variable on
every expanded rotation date and on the relief dates start-1 and start+10
unconditionally — without any weekday check. -/
theorem inpatient_block_amended (providers : List Provider)
    (cal : Calendar) (starts : List InpatientStart)
    (days : List InpatientDay) (asg : Asg)
    (hok : zeroTriplesOk asg
      (imInpatientZeroTriples providers cal starts days) = true) :
    (∀ r ∈ starts,
      (∀ s ∈ fabric providers cal r.provider (r.startDate - 1),
        asg r.provider (r.startDate - 1) s = false)
      ∧ (∀ s ∈ fabric providers cal r.provider (r.startDate + 10),
        asg r.provider (r.startDate + 10) s = false))
    ∧ (∀ pd ∈ days, ∀ s ∈ fabric providers cal pd.1 pd.2,
        asg pd.1 pd.2 s = false) := by
  constructor
  · intro r hr
    constructor
    · intro s hs
      refine zeroTriplesOk_mem asg _ hok (r.provider, r.startDate - 1, s) ?_
      simp only [imInpatientZeroTriples, List.mem_flatMap]
      refine ⟨(r.provider, r.startDate - 1), ?_, ?_⟩
      · simp only [inpatientBlockedPairs, List.mem_append, List.mem_flatMap]
        exact .inl ⟨r, hr, by simp⟩
      · simp only [List.mem_map]
        exact ⟨s, hs, rfl⟩
    · intro s hs
      refine zeroTriplesOk_mem asg _ hok (r.provider, r.startDate + 10, s) ?_
      simp only [imInpatientZeroTriples, List.mem_flatMap]
      refine ⟨(r.provider, r.startDate + 10), ?_, ?_⟩
      · simp only [inpatientBlockedPairs, List.mem_append, List.mem_flatMap]
        exact .inl ⟨r, hr, by simp⟩
      · simp only [List.mem_map]
        exact ⟨s, hs, rfl⟩
  · intro pd hpd s hs
    refine zeroTriplesOk_mem asg _ hok (pd.1, pd.2, s) ?_
    simp only [imInpatientZeroTriples, List.mem_flatMap]
    refine ⟨pd, ?_, ?_⟩
    · simp only [inpatientBlockedPairs, List.mem_append]
      exact .inr hpd
    · simp only [List.mem_map]
      exact ⟨s, hs, rfl⟩

/-- Concrete run for amended claim C5: with the rotation of the
counterexample and the all-zero solution, the pre-relief date is indeed
fully blocked. -/
theorem inpatient_block_amended_witness :
    (fun _ _ _ => false : Asg) "ann" 2 Session.morning = false := by
  have h := inpatient_block_amended ["ann"] [(2, [Session.morning])]
    [⟨"ann", 3⟩] [] (fun _ _ _ => false) (by decide)
  exact (h.1 ⟨"ann", 3⟩ (by decide)).1 Session.morning (by decide)

/- ------------------------------------------------------------------ -/
/- Graceful skipping of absent variables (claim C8)                   -/
/- ------------------------------------------------------------------ -/

/-- Claim C8: every constraint emitted by the embedded assemblers (leave
blocking, inpatient blocking in both department variants, min/max
staffing, pediatric post-call suppression) references only (provider,
date, session) triples present in the variable fabric, and a row naming a
provider without variables contributes no constraint at all — the
assemblers are total and skip absent triples instead of failing. -/
theorem assemblers_skip_absent_triples (providers : List Provider)
    (cal : Calendar) (leave : List LeaveRow) (starts : List InpatientStart)
    (days : List InpatientDay) (minS maxS : Nat) :
    (∀ tr ∈ leaveZeroTriples providers cal leave,
      tr.2.2 ∈ fabric providers cal tr.1 tr.2.1)
    ∧ (∀ tr ∈ imInpatientZeroTriples providers cal starts days,
      tr.2.2 ∈ fabric providers cal tr.1 tr.2.1)
    ∧ (∀ tr ∈ pedsInpatientZeroTriples providers cal starts days,
      tr.2.2 ∈ fabric providers cal tr.1 tr.2.1)
    ∧ (∀ c ∈ imStaffingConstraints providers cal minS maxS,
      ∀ p ∈ c.staff, c.session ∈ fabric providers cal p c.date)
    ∧ (∀ c ∈ pedsStaffingConstraints providers cal minS maxS,
      ∀ p ∈ c.staff, c.session ∈ fabric providers cal p c.date)
    ∧ (∀ pr ∈ pedsPostCallConstraints providers cal,
      Session.call ∈ fabric providers cal pr.1 pr.2
      ∧ Session.afternoon ∈ fabric providers cal pr.1 (pr.2 + 1))
    ∧ (∀ p d, p ∉ providers →
        leaveZeroTriples providers cal [(p, d)] = []) := by
  refine ⟨?_, ?_, ?_, ?_, ?_, ?_, ?_⟩
  · intro tr htr
    simp only [leaveZeroTriples, List.mem_flatMap, List.mem_map] at htr
    obtain ⟨r, hr, s, hs, rfl⟩ := htr
    exact hs
  · intro tr htr
    simp only [imInpatientZeroTriples, List.mem_flatMap, List.mem_map] at htr
    obtain ⟨pd, hpd, s, hs, rfl⟩ := htr
    exact hs
  · intro tr htr
    simp only [pedsInpatientZeroTriples, List.mem_flatMap, List.mem_map,
      List.mem_filter] at htr
    obtain ⟨pd, hpd, s, hs, rfl⟩ := htr
    exact hs.1
  · intro c hc p hp
    simp only [imStaffingConstraints, List.mem_flatMap,
      List.mem_filterMap] at hc
    obtain ⟨e, he, s, hs, hsome⟩ := hc
    by_cases hemp : (slotStaff providers cal e.1 s).isEmpty
    · rw [if_pos hemp] at hsome
      cases hsome
    · rw [if_neg hemp] at hsome
      obtain rfl := Option.some.inj hsome
      have := List.mem_filter.1 hp
      simpa using this.2
  · intro c hc p hp
    simp only [pedsStaffingConstraints, List.mem_flatMap,
      List.mem_filterMap] at hc
    obtain ⟨e, he, s, hs, hsome⟩ := hc
    by_cases hemp : (slotStaff providers cal e.1 s).isEmpty
    · rw [if_pos hemp] at hsome
      cases hsome
    · rw [if_neg hemp] at hsome
      obtain rfl := Option.some.inj hsome
      have := List.mem_filter.1 hp
      simpa using this.2
  · intro pr hpr
    simp only [pedsPostCallConstraints, List.mem_flatMap] at hpr
    obtain ⟨cd, hcd, hmem⟩ := hpr
    by_cases hkey : (cal.find? (fun e => decide (e.1 = cd + 1))).isSome
    · rw [if_pos hkey] at hmem
      by_cases haft : Session.afternoon ∈ calLookup cal (cd + 1)
      · rw [if_pos haft] at hmem
        simp only [List.mem_filterMap] at hmem
        obtain ⟨p, hp, hsome⟩ := hmem
        by_cases hcond : Session.call ∈ fabric providers cal p cd ∧
            Session.afternoon ∈ fabric providers cal p (cd + 1)
        · rw [if_pos hcond] at hsome
          obtain rfl := Option.some.inj hsome
          exact hcond
        · rw [if_neg hcond] at hsome
          cases hsome
      · rw [if_neg haft] at hmem
        cases hmem
    · rw [if_neg hkey] at hmem
      cases hmem
  · intro p d hp
    simp [leaveZeroTriples, fabric, hp]

/-- Concrete run for claim C8: the single leave row of a provider outside
the roster contributes no constraint. -/
theorem assemblers_skip_absent_triples_witness :
    leaveZeroTriples ["ann"] [(0, [Session.morning])] [("zoe", 0)] = [] := by
  exact (assemblers_skip_absent_triples ["ann"] [(0, [Session.morning])]
    [("zoe", 0)] [] [] 0 5).2.2.2.2.2.2 "zoe" 0 (by decide)

/- ------------------------------------------------------------------ -/
/- Random day off (claim C4)                                          -/
/- ------------------------------------------------------------------ -/

/-- Claim C4 (amended): for every provider and unblocked week with
RDO-eligible dates — in pediatrics additionally only for providers whose
needs_rdo flag is true — the model constrains the sum of that week's
day-off indicators to exactly 1.  Consequently, among the dates the
constraint considers (the preference-narrowed eligible dates of the
group): in internal medicine exactly one such date has zero sessions; in
pediatrics exactly one indicator is set, the indicator of every
considered date with clinic sessions equals the zero-clinic-sessions test
of that date (so when every considered date has clinic sessions, exactly
one of them has zero clinic sessions), and a set indicator forces the
date's call session, where one exists, to zero.  Days of the week outside
the considered set may additionally be fully off, and a pediatric
provider with needs_rdo false receives no group at all. -/
theorem rdo_amended (providers : List Provider) (cal : Calendar)
    (leave : List LeaveRow) (inpDays : List InpatientDay)
    (holidays : List Int) (eligibleDays : List Weekday)
    (cfg : ProviderConfig) (asg : Asg)
    (rdoAuxIm rdoAuxPeds : Provider → Int → Bool)
    (hokIm : imRdoOk providers cal leave inpDays holidays eligibleDays cfg
      asg rdoAuxIm = true)
    (hokPeds : pedsRdoOk providers cal leave inpDays holidays eligibleDays
      cfg asg rdoAuxPeds = true) :
    (∀ g ∈ imRdoGroups providers cal leave inpDays holidays eligibleDays
        cfg,
      g.2.countP (fun d => dayAllZero providers cal asg g.1 d) = 1)
    ∧ (∀ g ∈ pedsRdoGroups providers cal leave inpDays holidays
        eligibleDays cfg,
      g.2.countP (fun d => rdoAuxPeds g.1 d) = 1
      ∧ (∀ d ∈ g.2, (clinicFabric providers cal g.1 d).isEmpty = false →
          rdoAuxPeds g.1 d = dayClinicAllZero providers cal asg g.1 d)
      ∧ (∀ d ∈ g.2, rdoAuxPeds g.1 d = true →
          Session.call ∈ fabric providers cal g.1 d →
          asg g.1 d Session.call = false)
      ∧ ((∀ d ∈ g.2, (clinicFabric providers cal g.1 d).isEmpty = false) →
          g.2.countP
            (fun d => dayClinicAllZero providers cal asg g.1 d) = 1))
    ∧ (∀ p, pedsNeedsRdo cfg p = false →
        ∀ ds, (p, ds) ∉ pedsRdoGroups providers cal leave inpDays holidays
          eligibleDays cfg) := by
  refine ⟨?_, ?_, ?_⟩
  · intro g hg
    rw [imRdoOk, List.all_eq_true] at hokIm
    have h := hokIm g hg
    simp only [Bool.and_eq_true, List.all_eq_true, beq_iff_eq] at h
    obtain ⟨hiff, hcount⟩ := h
    have hcongr : List.countP
        (fun d => dayAllZero providers cal asg g.1 d) g.2 =
        List.countP (fun d => rdoAuxIm g.1 d) g.2 :=
      List.countP_congr (fun x hx => by rw [hiff x hx])
    rw [hcongr]
    exact hcount
  · intro g hg
    rw [pedsRdoOk, List.all_eq_true] at hokPeds
    have h := hokPeds g hg
    simp only [Bool.and_eq_true, List.all_eq_true, beq_iff_eq] at h
    obtain ⟨hper, hcount⟩ := h
    have hclin : ∀ d ∈ g.2,
        (clinicFabric providers cal g.1 d).isEmpty = false →
        rdoAuxPeds g.1 d = dayClinicAllZero providers cal asg g.1 d := by
      intro d hd hne
      have := (hper d hd).1
      rw [if_neg (by simp [hne])] at this
      simpa using this
    refine ⟨hcount, hclin, ?_, ?_⟩
    · intro d hd hset hcall
      have := (hper d hd).2
      rw [if_pos hcall] at this
      rcases Bool.or_eq_true_iff.1 this with hnot | hnot
      · rw [hset] at hnot
        cases hnot
      · simpa using hnot
    · intro hall
      have hcongr : List.countP
          (fun d => dayClinicAllZero providers cal asg g.1 d) g.2 =
          List.countP (fun d => rdoAuxPeds g.1 d) g.2 :=
        List.countP_congr (fun x hx => by rw [hclin x hx (hall x hx)])
      rw [hcongr]
      exact hcount
  · intro p hflag ds hmem
    simp only [pedsRdoGroups, List.mem_flatMap] at hmem
    obtain ⟨p0, hp0, hmem2⟩ := hmem
    by_cases hneed : pedsNeedsRdo cfg p0
    · rw [if_pos hneed] at hmem2
      simp only [List.mem_filterMap] at hmem2
      obtain ⟨w, hw, hsome⟩ := hmem2
      by_cases hblk : pedsBlockedWeek leave inpDays holidays cfg p0 w
      · rw [if_pos hblk] at hsome
        cases hsome
      · rw [if_neg hblk] at hsome
        by_cases hemp : (match (cfgLookup cfg p0).bind
            ProviderInfo.rdoPreference with
          | some pw =>
              let pd := (((fabricDates providers cal p0).filter
                (fun d => dateWeekday d ∈ eligibleDays)).filter
                  (fun d => decide (sundayWeekStart d = w))).filter
                (fun d => decide (dateWeekday d = pw))
              if pd.isEmpty then
                ((fabricDates providers cal p0).filter
                  (fun d => dateWeekday d ∈ eligibleDays)).filter
                  (fun d => decide (sundayWeekStart d = w))
              else pd
          | none =>
              ((fabricDates providers cal p0).filter
                (fun d => dateWeekday d ∈ eligibleDays)).filter
                (fun d => decide (sundayWeekStart d = w))).isEmpty
        · rw [if_pos hemp] at hsome
          cases hsome
        · rw [if_neg hemp] at hsome
          have hfst : p0 = p := congrArg Prod.fst (Option.some.inj hsome)
          rw [← hfst] at hflag
          rw [hneed] at hflag
          cases hflag
    · rw [if_neg hneed] at hmem2
      cases hmem2

/-- Providers of the C4 counterexample. -/
def provsC4 : List Provider := ["ann"]

/-- Calendar of the C4 counterexample: one week with a Monday, Tuesday and
Wednesday morning clinic (dates 0, 1, 2). -/
def calC4 : Calendar :=
  [(0, [Session.morning]), (1, [Session.morning]), (2, [Session.morning])]

/-- Provider configuration of the C4 counterexample. -/
def cfgC4 : ProviderConfig := [("ann", ⟨"MD", 10, none, true⟩)]

/-- Solution of the C4 counterexample: the provider works only the
Tuesday morning clinic. -/
def asgC4 : Asg := fun _ d s => decide (d = 1) && (s == Session.morning)

/-- The calendar dates of a week. -/
def calDatesInWeek (cal : Calendar) (w : Int) : List Int :=
  (cal.map Prod.fst).filter (fun d => decide (mondayOf d = w))

/-- Claim C4 counterexample: with eligible days Monday/Tuesday, the RDO
constraint ranges only over dates 0 and 1 and is satisfied (Monday off),
together with all the other internal-medicine constraints; yet the week
has two fully-off days (Monday and the non-eligible Wednesday), so
"exactly one day of that week has zero sessions" fails. -/
theorem rdo_exactly_one_day_counterexample :
    imRdoGroups provsC4 calC4 [] [] []
      [Weekday.monday, Weekday.tuesday] cfgC4 = [("ann", [0, 1])]
    ∧ imRdoOk provsC4 calC4 [] [] [] [Weekday.monday, Weekday.tuesday]
        cfgC4 asgC4 (fun _ d => d == 0) = true
    ∧ zeroTriplesOk asgC4 (leaveZeroTriples provsC4 calC4 []) = true
    ∧ zeroTriplesOk asgC4 (imInpatientZeroTriples provsC4 calC4 [] []) =
        true
    ∧ imClinicCountOk provsC4 calC4 cfgC4 [] asgC4 (fun _ _ => 8) = true
    ∧ staffingOk asgC4 (imStaffingConstraints provsC4 calC4 0 5) = true
    ∧ (calDatesInWeek calC4 0).countP
        (fun d => dayAllZero provsC4 calC4 asgC4 "ann" d) = 2 := by decide

/-- Concrete run for amended claim C4: on the counterexample instance the
considered dates 0 and 1 contain exactly one full day off under the
internal-medicine constraints and exactly one clinic-free day under the
pediatric constraints (both models instantiated on the same input). -/
theorem rdo_amended_witness :
    [(0 : Int), 1].countP
      (fun d => dayAllZero provsC4 calC4 asgC4 "ann" d) = 1
    ∧ [(0 : Int), 1].countP
        (fun d => dayClinicAllZero provsC4 calC4 asgC4 "ann" d) = 1 := by
  have h := rdo_amended provsC4 calC4 [] []
    [] [Weekday.monday, Weekday.tuesday] cfgC4 asgC4 (fun _ d => d == 0)
    (fun _ d => d == 0) (by decide) (by decide)
  refine ⟨h.1 ("ann", [0, 1]) (by decide), ?_⟩
  exact (h.2.1 ("ann", [0, 1]) (by decide)).2.2.2 (by decide)

/- ------------------------------------------------------------------ -/
/- Weekly clinic caps (claims C6 and C9)                              -/
/- ------------------------------------------------------------------ -/

/-- Claim C6: the family-practice hard weekly cap equals the configured
weekly maximum, reduced by 2 in a post-inpatient week, further reduced by
the provider's pediatric clinic sessions of the week, clamped below at 0;
solutions never exceed it, nor the internal-medicine cap. -/
theorem fp_weekly_cap (base peds : Int) (post : Bool) (hpeds : 0 ≤ peds) :
    fpAdjustedCap base post peds =
      max 0 (base - (if post then 2 else 0) - peds)
    ∧ (∀ providers cal cfg starts rows asg underMin p info w,
        fpClinicCountOk providers cal cfg starts rows asg underMin = true →
        p ∈ providers → cfgLookup cfg p = some info →
        w ∈ imProvWeeks providers cal p →
        (weekClinicSum asg p (imWeekSessionPairs providers cal p w) : Int) ≤
          fpAdjustedCap info.maxClinicsPerWeek
            ((imPostInpatientWeeks starts p).contains w)
            (pedsClinicsCount rows p w))
    ∧ (∀ providers cal cfg starts asg underMin p info w,
        imClinicCountOk providers cal cfg starts asg underMin = true →
        p ∈ providers → cfgLookup cfg p = some info →
        w ∈ imProvWeeks providers cal p →
        (weekClinicSum asg p (imWeekSessionPairs providers cal p w) : Int) ≤
          imWeekCap info.maxClinicsPerWeek
            ((imPostInpatientWeeks starts p).contains w)) := by
  refine ⟨?_, ?_, ?_⟩
  · unfold fpAdjustedCap
    cases post
    · simp
    · simp only [if_true]
      rw [max_def, max_def, max_def]
      split_ifs <;> omega
  · intro providers cal cfg starts rows asg underMin p info w hok hp hinfo hw
    rw [fpClinicCountOk, List.all_eq_true] at hok
    have h1 := hok p hp
    rw [hinfo] at h1
    rw [List.all_eq_true] at h1
    have h2 := h1 w hw
    simp only [Bool.and_eq_true, decide_eq_true_eq] at h2
    exact h2.1.1.1
  · intro providers cal cfg starts asg underMin p info w hok hp hinfo hw
    rw [imClinicCountOk, List.all_eq_true] at hok
    have h1 := hok p hp
    rw [hinfo] at h1
    rw [List.all_eq_true] at h1
    have h2 := h1 w hw
    simp only [Bool.and_eq_true, decide_eq_true_eq] at h2
    exact h2.1.1.1

/-- Concrete run for claim C6: configured maximum 5, a post-inpatient week
(rotation start -7) and one pediatric clinic session that week give cap
max(0, 5-2-1) = 2, respected by a solution working both mornings. -/
theorem fp_weekly_cap_witness :
    fpAdjustedCap 5 true 1 = 2
    ∧ (weekClinicSum (fun _ _ s => s == Session.morning) "ann"
        (imWeekSessionPairs ["ann"]
          [(0, [Session.morning]), (1, [Session.morning])] "ann" 0) : Int) ≤
      fpAdjustedCap 2 false 0 := by
  constructor
  · have h := (fp_weekly_cap 5 1 true (by decide)).1
    rw [h]
    decide
  · exact (fp_weekly_cap 5 1 true (by decide)).2.1
      ["ann"] [(0, [Session.morning]), (1, [Session.morning])]
      [("ann", ⟨"MD", 2, none, true⟩)] [] [] (fun _ _ s => s == Session.morning)
      (fun _ _ => 0) "ann" ⟨"MD", 2, none, true⟩ 0 (by decide) (by decide)
      (by decide) (by decide)

/-- Claim C9: with the same adjusted weekly maximum M >= 2, the
internal-medicine soft minimum target max(1, M-1) and the pediatrics
target max(1, M) differ; a week with exactly M-1 clinic sessions forces a
positive shortfall (under_min >= 1) under the pediatrics constraint while
the internal-medicine constraint is satisfiable with shortfall 0. -/
theorem min_target_divergence (M : Int) (h2 : 2 ≤ M) :
    imWeekMinTarget M ≠ pedsWeekMinTarget M
    ∧ imWeekMinTarget M = M - 1
    ∧ pedsWeekMinTarget M = M
    ∧ (∀ u : Int, 0 ≤ u → pedsWeekMinTarget M ≤ (M - 1) + u → 1 ≤ u)
    ∧ (0 ≤ (0 : Int) ∧ imWeekMinTarget M ≤ (M - 1) + 0) := by
  have him : imWeekMinTarget M = M - 1 := by
    unfold imWeekMinTarget
    rw [max_def]
    split_ifs <;> omega
  have hpeds : pedsWeekMinTarget M = M := by
    unfold pedsWeekMinTarget
    rw [max_def]
    split_ifs <;> omega
  refine ⟨?_, him, hpeds, ?_, ?_⟩
  · rw [him, hpeds]
    omega
  · intro u hu hge
    rw [hpeds] at hge
    omega
  · rw [him]
    omega

/-- Concrete run for claim C9 at M = 3: internal medicine targets 2, the
pediatrics variant targets 3. -/
theorem min_target_divergence_witness :
    imWeekMinTarget 3 = 2 ∧ pedsWeekMinTarget 3 = 3 := by
  have h := min_target_divergence 3 (by decide)
  refine ⟨?_, h.2.2.1⟩
  rw [h.2.1]
  decide

end Chinle
